import Mathlib

/-!
Shallow embedding of the `embedded_test` C++ module (`fast_comms.h` /
`fast_comms.cpp`): the `FastComms` raw link-layer endpoint, the
`PacketValidator` checksum routines, and theorems checking the
natural-language specification against them.

Modelling conventions.
* A byte sequence (`std::vector<uint8_t>`) is a `List Nat`; well-formed
  byte sequences have every entry < 256 (`BytesWF`).
* Machine integers are `Nat` or `Int` with explicit `% 2 ^ 32` where the
  C++ `uint32_t` arithmetic can wrap.
* The C++ `double` field `avg_latency_us` is modelled as an exact `Rat`;
  the EWMA coefficients 0.9 and 0.1 become the rationals 9/10 and 1/10.
* Kernel interactions (the results of `socket`, `bind`, `send`, `recv`,
  `setsockopt`, and the monotonic clock readings) are oracle arguments:
  each operation takes the outcome the kernel would produce, and the
  function computes what the C++ code does with it.
-/

namespace EmbeddedTest

set_option maxRecDepth 10000

/-- Byte sequences: each entry models one `uint8_t`. -/
abbrev Bytes := List Nat

/-- A well-formed byte sequence: every entry fits in a `uint8_t`. -/
def BytesWF (data : Bytes) : Prop := ∀ b ∈ data, b < 256

instance : DecidablePred BytesWF := fun data =>
  List.decidableBAll (fun b => b < 256) data

/-! ### PacketValidator: CRC-32

From `PacketValidator::calculate_crc32` (fast_comms.cpp lines 290-305):
bit-serial loop, register seeded with 0xFFFFFFFF, per byte the register is
xored with the byte and then shifted eight times with conditional
polynomial feedback, final complement. -/

/-- One iteration of the inner `for (int i = 0; i < 8; i++)` loop of
`calculate_crc32`: shift right once, with polynomial feedback when the
low bit is set. -/
def crcBitStep (crc : Nat) : Nat :=
  if crc % 2 = 1 then (crc / 2) ^^^ 0xEDB88320 else crc / 2

/-- One iteration of the outer `for (uint8_t byte : data)` loop:
`crc ^= byte` then eight `crcBitStep`s. -/
def crcByteStep (crc b : Nat) : Nat :=
  crcBitStep^[8] (crc ^^^ b)

/-- `PacketValidator::calculate_crc32`: fold `crcByteStep` from the seed
0xFFFFFFFF, then return the complement (`~crc` on a `uint32_t` value
below 2^32 is xor with 0xFFFFFFFF). -/
def calculate_crc32 (data : Bytes) : Nat :=
  (data.foldl crcByteStep 0xFFFFFFFF) ^^^ 0xFFFFFFFF

/-- `PacketValidator::verify_packet` (fast_comms.cpp lines 307-310). -/
def verify_packet (packet : Bytes) (expected_crc : Nat) : Bool :=
  calculate_crc32 packet == expected_crc

/-- Modelled from the spec (§4.2): one step of the reflected CRC-32 taken
one message bit at a time, polynomial 0xEDB88320: xor the incoming bit
into the low end of the register, shift right, feed the polynomial back
when the xored low bit was set. -/
def crcSpecBitStep (crc bit : Nat) : Nat :=
  if (crc ^^^ bit) % 2 = 1 then (crc / 2) ^^^ 0xEDB88320 else crc / 2

/-- The eight bits of a byte, least significant first (the reflected
bit order of the spec's CRC). -/
def byteBitsLSB (b : Nat) : List Nat :=
  [b % 2, b / 2 % 2, b / 4 % 2, b / 8 % 2, b / 16 % 2, b / 32 % 2,
   b / 64 % 2, b / 128 % 2]

/-- Modelled from the spec (§4.2): reflected CRC-32, polynomial
0xEDB88320, initial register 0xFFFFFFFF, message bits fed least
significant first, final xor 0xFFFFFFFF. -/
def crc32Spec (data : Bytes) : Nat :=
  (data.foldl (fun crc b => (byteBitsLSB b).foldl crcSpecBitStep crc)
    0xFFFFFFFF) ^^^ 0xFFFFFFFF

/-! ### PacketValidator: 16-bit ones-complement checksum

From `PacketValidator::calculate_simple_checksum` (fast_comms.cpp lines
312-328): big-endian 16-bit words are accumulated in a `uint32_t` (so the
running sum wraps at 2^32), the carries are folded into the low 16 bits,
and the result is `~sum & 0xFFFF`. -/

/-- The accumulation loop of `calculate_simple_checksum`: two bytes form
the big-endian word `data[i] << 8 | data[i+1]` (a lone trailing byte
occupies the high half), and `sum += word` is `uint32_t` arithmetic. -/
def checksumSumAux : Bytes → Nat → Nat
  | [], sum => sum
  | [a], sum => (sum + a * 256) % 2 ^ 32
  | a :: b :: rest, sum => checksumSumAux rest ((sum + (a * 256 + b)) % 2 ^ 32)

/-- The `while (sum >> 16)` loop: fold the carries into the low 16 bits. -/
def foldCarries (sum : Nat) : Nat :=
  if 0 < sum >>> 16 then foldCarries ((sum &&& 0xFFFF) + (sum >>> 16)) else sum
termination_by sum
decreasing_by
  have h1 : sum &&& 0xFFFF = sum % 65536 := by
    have h2 := Nat.and_pow_two_sub_one_eq_mod sum 16
    norm_num at h2
    omega
  omega

/-- `PacketValidator::calculate_simple_checksum`: accumulate with
`uint32_t` wraparound, fold carries, return `~sum & 0xFFFF`. -/
def calculate_simple_checksum (data : Bytes) : Nat :=
  ((foldCarries (checksumSumAux data 0)) ^^^ 0xFFFFFFFF) &&& 0xFFFF

/-- Modelled from the spec (§4.2): the exact (unbounded) sum of the
big-endian 16-bit words of `data`; on odd length the final byte occupies
the high half with the low half zero. -/
def inetWordSum : Bytes → Nat
  | [] => 0
  | [a] => a * 256
  | a :: b :: rest => (a * 256 + b) + inetWordSum rest

/-- Modelled from the spec (§4.2): the Internet (16-bit ones-complement)
checksum of `data` alone: sum the big-endian words, fold carries into the
low 16 bits, bitwise-NOT, truncate to 16 bits. -/
def internetChecksum (data : Bytes) : Nat :=
  (foldCarries (inetWordSum data)) ^^^ 0xFFFF

/-! ### FastComms: data model

From `fast_comms.h`: `PacketStats`, `CommResult`, and the private state of
`FastComms` (`interface_name_`, `timeout_ms_`, `socket_fd_`,
`initialized_`, `stats_`). The extra field `kernel_rcvtimeo` is a ghost
record of the kernel-side `SO_RCVTIMEO` value most recently programmed
through `setsockopt` (as the `timeval` pair `(tv_sec, tv_usec)`); it is
`none` while no socket is open. -/

/-- `embedded_test::PacketStats` (fast_comms.h lines 22-33). -/
structure PacketStats where
  packets_sent : Nat
  packets_received : Nat
  bytes_sent : Nat
  bytes_received : Nat
  errors : Nat
  avg_latency_us : Rat
deriving DecidableEq

/-- The `PacketStats` default constructor: all counters zero. -/
def PacketStats.zero : PacketStats := ⟨0, 0, 0, 0, 0, 0⟩

/-- `embedded_test::CommResult` (fast_comms.h lines 35-42). -/
structure CommResult where
  success : Bool
  data : Bytes
  latency_us : Nat
  error_message : String
deriving DecidableEq

/-- The `CommResult` default constructor: failure, no data, zero latency,
empty message. -/
def CommResult.zero : CommResult := ⟨false, [], 0, ""⟩

/-- The state of one `embedded_test::FastComms` instance. -/
structure FastComms where
  interface_name : String
  timeout_ms : Nat
  socket_fd : Int
  initialized : Bool
  stats : PacketStats
  kernel_rcvtimeo : Option (Nat × Nat)
deriving DecidableEq

/-- The kernel's answer to one `send` call: a negative return (`err`), or
acceptance of `n` bytes (`accepted n`; `n` equal to the frame length is a
full write, smaller is a short write). -/
inductive SendOutcome where
  | err
  | accepted (n : Nat)
deriving DecidableEq

/-- The kernel's answer to one `recv` call: a negative return with
`errno` EAGAIN/EWOULDBLOCK (`wouldBlock`), a negative return with any
other `errno` (`fail`), or delivery of the frame `f` (`frame f`, with
`f.length ≤ max_size` since `recv` copies at most `max_size` bytes). -/
inductive RecvOutcome where
  | wouldBlock
  | fail
  | frame (f : Bytes)
deriving DecidableEq

/-- The `FastComms` constructor (fast_comms.cpp lines 25-30): stores the
interface name and timeout, no socket, not initialized, zero stats. -/
def FastComms.make (interface_name : String) (timeout_ms : Nat) : FastComms :=
  ⟨interface_name, timeout_ms, -1, false, PacketStats.zero, none⟩

/-- `FastComms::update_stats` (fast_comms.cpp lines 267-280). `sent`
selects the send counters, otherwise the receive counters; the EWMA
`avg = avg * 0.9 + latency * 0.1` is applied only to a strictly positive
latency sample. -/
def update_stats (s : PacketStats) (sent : Bool) (bytes : Nat)
    (latency_us : Nat) : PacketStats :=
  let s1 :=
    if sent then
      { s with packets_sent := s.packets_sent + 1,
               bytes_sent := s.bytes_sent + bytes }
    else
      { s with packets_received := s.packets_received + 1,
               bytes_received := s.bytes_received + bytes }
  if 0 < latency_us then
    { s1 with avg_latency_us :=
        s1.avg_latency_us * (9 / 10) + (latency_us : Rat) * (1 / 10) }
  else s1

/-- `FastComms::initialize` (fast_comms.cpp lines 36-65), renamed because
Lean reserves the word. Oracles: `sock` is `create_raw_socket`'s result
(`none` for a failed `socket(2)` call, which the C++ reports as `-1`),
`bindOk` whether `bind_to_interface` succeeded, `rcvtimeoOk` whether the
`setsockopt(SO_RCVTIMEO)` call succeeded (its failure is only a warning).
Returns the new state and the C++ return value. -/
def FastComms.initChannel (c : FastComms) (sock : Option Nat) (bindOk : Bool)
    (rcvtimeoOk : Bool) : FastComms × Bool :=
  if c.initialized then (c, true)
  else
    match sock with
    | none => ({ c with socket_fd := -1 }, false)
    | some fd =>
      if bindOk then
        let c1 := { c with socket_fd := (fd : Int) }
        let c2 :=
          if rcvtimeoOk then
            let tv := (c.timeout_ms / 1000, c.timeout_ms % 1000 * 1000)
            { c1 with kernel_rcvtimeo := some tv }
          else c1
        ({ c2 with initialized := true }, true)
      else
        ({ c with socket_fd := -1 }, false)

/-- `FastComms::close` (fast_comms.cpp lines 67-73): release the socket
if one is open (which clears the kernel's receive-timeout state with it),
and clear the flag. -/
def FastComms.close (c : FastComms) : FastComms :=
  if 0 ≤ c.socket_fd then
    { c with socket_fd := -1, initialized := false, kernel_rcvtimeo := none }
  else
    { c with initialized := false }

/-- `FastComms::send_packet` (fast_comms.cpp lines 75-93). Oracles: `kr`
is the kernel's answer to `send`, `latency_us` the difference of the two
`get_timestamp_us` readings around it. Returns the new state and the C++
return value `sent == data.size()`. -/
def FastComms.send_packet (c : FastComms) (data : Bytes) (kr : SendOutcome)
    (latency_us : Nat) : FastComms × Bool :=
  if c.initialized = false ∨ c.socket_fd < 0 then (c, false)
  else
    match kr with
    | .err =>
      ({ c with stats := { c.stats with errors := c.stats.errors + 1 } }, false)
    | .accepted n =>
      ({ c with stats := update_stats c.stats true n latency_us },
       n == data.length)

/-- The effect of `buffer.resize(n)` on a `std::vector`: keep the first
`n` entries, zero-fill any growth. -/
def listResize (l : Bytes) (n : Nat) : Bytes :=
  l.take n ++ List.replicate (n - l.length) 0

/-- `FastComms::receive_packet` (fast_comms.cpp lines 95-117). The buffer
is the caller's in-out vector: it is resized to `max_size` before `recv`;
on the would-block and error paths it is left at that size, on delivery
of a frame `buffer.resize(received)` leaves exactly the received bytes.
Returns the new state, the `int` return value and the final buffer. -/
def FastComms.receive_packet (c : FastComms) (buffer : Bytes)
    (max_size : Nat) (kr : RecvOutcome) : FastComms × Int × Bytes :=
  if c.initialized = false ∨ c.socket_fd < 0 then (c, -1, buffer)
  else
    let buf := listResize buffer max_size
    match kr with
    | .wouldBlock => (c, 0, buf)
    | .fail =>
      ({ c with stats := { c.stats with errors := c.stats.errors + 1 } },
       -1, buf)
    | .frame f =>
      ({ c with stats := update_stats c.stats false f.length 0 },
       (f.length : Int), f)

/-- `FastComms::send_and_receive` (fast_comms.cpp lines 119-149).
Oracles: `skr`/`slat` feed the inner `send_packet`, `response`/`rkr` the
inner `receive_packet` (default max size 4096), and `t0`/`t1` are the
`get_timestamp_us` readings at entry and after the successful receive.
Returns the new state, the `CommResult` and the response buffer. -/
def FastComms.send_and_receive (c : FastComms) (request : Bytes)
    (skr : SendOutcome) (slat : Nat) (response : Bytes) (rkr : RecvOutcome)
    (t0 t1 : Nat) : FastComms × CommResult × Bytes :=
  let s := c.send_packet request skr slat
  if s.2 = false then
    (s.1, { CommResult.zero with error_message := "Failed to send request" },
     response)
  else
    let r := s.1.receive_packet response 4096 rkr
    if r.2.1 < 0 then
      (r.1, { CommResult.zero with
        error_message := "Failed to receive response" }, r.2.2)
    else if r.2.1 = 0 then
      (r.1, { CommResult.zero with error_message := "Response timeout" },
       r.2.2)
    else
      (r.1, { success := true, data := r.2.2, latency_us := t1 - t0,
              error_message := "" }, r.2.2)

/-- `FastComms::burst_send` (fast_comms.cpp lines 151-161): fold
`send_packet` over the packets (each with its kernel oracle), counting
successes. -/
def FastComms.burst_send (c : FastComms)
    (packets : List (Bytes × SendOutcome × Nat)) : FastComms × Nat :=
  packets.foldl
    (fun acc p =>
      let r := acc.1.send_packet p.1 p.2.1 p.2.2
      (r.1, if r.2 then acc.2 + 1 else acc.2))
    (c, 0)

/-- `FastComms::measure_latency` (fast_comms.cpp lines 163-172):
`send_and_receive` on the payload, `latency_us` on success, `-1`
otherwise. -/
def FastComms.measure_latency (c : FastComms) (payload : Bytes)
    (skr : SendOutcome) (slat : Nat) (response : Bytes) (rkr : RecvOutcome)
    (t0 t1 : Nat) : FastComms × Int :=
  let r := c.send_and_receive payload skr slat response rkr t0 t1
  (r.1, if r.2.1.success then (r.2.1.latency_us : Int) else -1)

/-- `FastComms::set_timeout` (fast_comms.cpp lines 213-222): store the
new timeout; when a socket is open, reprogram the kernel receive-timeout
(the `setsockopt` result is ignored, so the oracle `ok` says whether the
kernel state actually changed). -/
def FastComms.set_timeout (c : FastComms) (t : Nat) (ok : Bool) : FastComms :=
  let c1 := { c with timeout_ms := t }
  if c1.initialized = true ∧ 0 ≤ c1.socket_fd ∧ ok = true then
    { c1 with kernel_rcvtimeo := some (t / 1000, t % 1000 * 1000) }
  else c1

/-- `FastComms::is_ready` (fast_comms.cpp lines 224-226). -/
def FastComms.is_ready (c : FastComms) : Bool :=
  c.initialized && decide (0 ≤ c.socket_fd)

/-! ### FastComms: stress_test

`FastComms::stress_test` (fast_comms.cpp lines 174-203) loops on the
monotonic clock: `while (get_timestamp_us() < end_time) send_packet(...)`.
The clock is the oracle `clock : Nat → Nat` giving the successive
`get_timestamp_us` readings (`clock 0` is the reading taken before the
loop), and `oracle k` feeds the `send` of iteration `k`. The loop is
modelled with explicit fuel: `none` means the deadline was still ahead
after `fuel` iterations (the C++ loop would still be running). -/

/-- The `while` loop of `stress_test`: at clock index `k`, stop as soon
as the reading reaches `endTime`, otherwise send one test packet,
update the local stats (`packets_sent`/`bytes_sent` on success, `errors`
on failure, with `bytes_sent += packet_size`) and continue. -/
def FastComms.stressLoop (pkt : Bytes) (endTime : Nat) (clock : Nat → Nat)
    (oracle : Nat → SendOutcome × Nat) :
    Nat → Nat → PacketStats → FastComms → Option (PacketStats × FastComms)
  | 0, k, acc, c => if clock k < endTime then none else some (acc, c)
  | fuel + 1, k, acc, c =>
    if clock k < endTime then
      let r := c.send_packet pkt (oracle k).1 (oracle k).2
      let acc2 :=
        if r.2 then
          { acc with packets_sent := acc.packets_sent + 1,
                     bytes_sent := acc.bytes_sent + pkt.length }
        else { acc with errors := acc.errors + 1 }
      FastComms.stressLoop pkt endTime clock oracle fuel (k + 1) acc2 r.1
    else some (acc, c)

/-- `FastComms::stress_test`: build the 0xAA test frame of `packet_size`
bytes, set the deadline `duration_ms * 1000` microseconds past the first
clock reading, and run the loop (first in-loop reading has index 1).
Returns the local `PacketStats` of this call and the final state. -/
def FastComms.stress_test (c : FastComms) (duration_ms packet_size : Nat)
    (clock : Nat → Nat) (oracle : Nat → SendOutcome × Nat) (fuel : Nat) :
    Option (PacketStats × FastComms) :=
  FastComms.stressLoop (List.replicate packet_size 0xAA)
    (clock 0 + duration_ms * 1000) clock oracle fuel 1 PacketStats.zero c

/-- The effect of a `stress_test` execution on the endpoint state, given
the finite list of kernel outcomes its iterations consumed: each
iteration is one `send_packet` of the 0xAA test frame
(`stressLoop_state_eq_stressRun` ties this to `stressLoop`). -/
def FastComms.stressRun (c : FastComms) (packet_size : Nat)
    (sends : List (SendOutcome × Nat)) : FastComms :=
  sends.foldl
    (fun st p => (st.send_packet (List.replicate packet_size 0xAA) p.1 p.2).1)
    c

/-! ### Operation traces

One `Op` is one public call on the endpoint together with the kernel and
clock oracles it consumes; `run` folds a call sequence from a given
state. `stress` carries the finite list of per-iteration kernel outcomes
the loop consumed, so every state a terminating (or still-running)
`stress_test` can reach is the `run` of some trace. Destruction is
`closeOp` (the destructor calls `close`). -/

/-- One public operation on a `FastComms` endpoint, with its oracles. -/
inductive Op where
  | initOp (sock : Option Nat) (bindOk : Bool) (rcvtimeoOk : Bool)
  | closeOp
  | send (data : Bytes) (kr : SendOutcome) (latency_us : Nat)
  | recv (buffer : Bytes) (max_size : Nat) (kr : RecvOutcome)
  | sendRecv (request : Bytes) (skr : SendOutcome) (slat : Nat)
      (response : Bytes) (rkr : RecvOutcome) (t0 t1 : Nat)
  | burst (packets : List (Bytes × SendOutcome × Nat))
  | latencyProbe (payload : Bytes) (skr : SendOutcome) (slat : Nat)
      (response : Bytes) (rkr : RecvOutcome) (t0 t1 : Nat)
  | stress (packet_size : Nat) (sends : List (SendOutcome × Nat))
  | setTimeout (t : Nat) (ok : Bool)

/-- The state reached by one operation. -/
def step (c : FastComms) : Op → FastComms
  | .initOp sock bindOk rcvtimeoOk => (c.initChannel sock bindOk rcvtimeoOk).1
  | .closeOp => c.close
  | .send data kr latency_us => (c.send_packet data kr latency_us).1
  | .recv buffer max_size kr => (c.receive_packet buffer max_size kr).1
  | .sendRecv request skr slat response rkr t0 t1 =>
    (c.send_and_receive request skr slat response rkr t0 t1).1
  | .burst packets => (c.burst_send packets).1
  | .latencyProbe payload skr slat response rkr t0 t1 =>
    (c.measure_latency payload skr slat response rkr t0 t1).1
  | .stress packet_size sends => c.stressRun packet_size sends
  | .setTimeout t ok => c.set_timeout t ok

/-- The state reached by a sequence of operations. -/
def run (c : FastComms) : List Op → FastComms
  | [] => c
  | op :: ops => run (step c op) ops

/-- A concrete endpoint in the Open state: fresh construction on
interface "eth0" with the default 1000 ms timeout, then a fully
successful `initChannel` that was handed socket descriptor 3. -/
def openEndpoint : FastComms :=
  ((FastComms.make "eth0" 1000).initChannel (some 3) true true).1

/-- A send oracle whose acceptance (if any) covers at least one byte. -/
def SendOutcome.acceptedPos : SendOutcome → Bool
  | .err => true
  | .accepted n => decide (1 ≤ n)

/-- A receive oracle whose delivered frame (if any) carries at least one
byte. -/
def RecvOutcome.framePos : RecvOutcome → Bool
  | .frame f => decide (1 ≤ f.length)
  | _ => true

/-- Every send oracle consumed by the operation is `acceptedPos`. -/
def Op.sendsPos : Op → Bool
  | .send _ kr _ => kr.acceptedPos
  | .sendRecv _ skr _ _ _ _ _ => skr.acceptedPos
  | .latencyProbe _ skr _ _ _ _ _ => skr.acceptedPos
  | .burst packets => packets.all (fun p => p.2.1.acceptedPos)
  | .stress _ sends => sends.all (fun p => p.1.acceptedPos)
  | _ => true

/-- Every receive oracle consumed by the operation is `framePos`. -/
def Op.recvsPos : Op → Bool
  | .recv _ _ kr => kr.framePos
  | .sendRecv _ _ _ _ rkr _ _ => rkr.framePos
  | .latencyProbe _ _ _ _ rkr _ _ => rkr.framePos
  | _ => true

/-- Whether a `burst_send` run from `c` contains a successful send of a
packet longer than one byte. -/
def burstBigSend : FastComms → List (Bytes × SendOutcome × Nat) → Bool
  | _, [] => false
  | c, p :: ps =>
    (decide (2 ≤ p.1.length) && (c.send_packet p.1 p.2.1 p.2.2).2)
      || burstBigSend (c.send_packet p.1 p.2.1 p.2.2).1 ps

/-- Whether a `stress_test` run from `c` contains a successful send of a
test frame longer than one byte. -/
def stressBigSend (psz : Nat) : FastComms → List (SendOutcome × Nat) → Bool
  | _, [] => false
  | c, p :: ps =>
    (decide (2 ≤ psz) && (c.send_packet (List.replicate psz 0xAA) p.1 p.2).2)
      || stressBigSend psz (c.send_packet (List.replicate psz 0xAA) p.1 p.2).1 ps

/-- Whether the operation, executed from state `c`, performs a successful
send (`send_packet` returning true) of a packet longer than one byte. -/
def bigSendInOp (c : FastComms) : Op → Bool
  | .send data kr l => decide (2 ≤ data.length) && (c.send_packet data kr l).2
  | .sendRecv req skr slat _ _ _ _ =>
    decide (2 ≤ req.length) && (c.send_packet req skr slat).2
  | .latencyProbe p skr slat _ _ _ _ =>
    decide (2 ≤ p.length) && (c.send_packet p skr slat).2
  | .burst packets => burstBigSend c packets
  | .stress psz sends => stressBigSend psz c sends
  | _ => false

/-- Whether the trace, executed from state `c`, contains a successful
send of a packet longer than one byte. -/
def hasBigSend : FastComms → List Op → Bool
  | _, [] => false
  | c, op :: ops => bigSendInOp c op || hasBigSend (step c op) ops

/-- The lifecycle invariant of the data model (§3): `initialized` is true
exactly when the socket handle is valid. -/
def LifecycleInv (c : FastComms) : Prop :=
  c.initialized = true ↔ 0 ≤ c.socket_fd

/-- The statistics invariant of §8: a packet counter never exceeds its
byte counter. -/
def StatsOk (s : PacketStats) : Prop :=
  s.packets_sent ≤ s.bytes_sent ∧ s.packets_received ≤ s.bytes_received

/-! ### Lifecycle lemmas: which operations touch `socket_fd` and
`initialized` -/

theorem send_packet_socket_fd (c : FastComms) (data : Bytes)
    (kr : SendOutcome) (l : Nat) :
    (c.send_packet data kr l).1.socket_fd = c.socket_fd := by
  unfold FastComms.send_packet
  split
  · rfl
  · cases kr <;> rfl

theorem send_packet_initialized (c : FastComms) (data : Bytes)
    (kr : SendOutcome) (l : Nat) :
    (c.send_packet data kr l).1.initialized = c.initialized := by
  unfold FastComms.send_packet
  split
  · rfl
  · cases kr <;> rfl

theorem receive_packet_socket_fd (c : FastComms) (buffer : Bytes)
    (m : Nat) (kr : RecvOutcome) :
    (c.receive_packet buffer m kr).1.socket_fd = c.socket_fd := by
  unfold FastComms.receive_packet
  split
  · rfl
  · cases kr <;> rfl

theorem receive_packet_initialized (c : FastComms) (buffer : Bytes)
    (m : Nat) (kr : RecvOutcome) :
    (c.receive_packet buffer m kr).1.initialized = c.initialized := by
  unfold FastComms.receive_packet
  split
  · rfl
  · cases kr <;> rfl

theorem send_and_receive_socket_fd (c : FastComms) (request : Bytes)
    (skr : SendOutcome) (slat : Nat) (response : Bytes) (rkr : RecvOutcome)
    (t0 t1 : Nat) :
    (c.send_and_receive request skr slat response rkr t0 t1).1.socket_fd =
      c.socket_fd := by
  unfold FastComms.send_and_receive
  dsimp only
  split
  · exact send_packet_socket_fd ..
  · split
    · rw [receive_packet_socket_fd, send_packet_socket_fd]
    · split
      · rw [receive_packet_socket_fd, send_packet_socket_fd]
      · rw [receive_packet_socket_fd, send_packet_socket_fd]

theorem send_and_receive_initialized (c : FastComms) (request : Bytes)
    (skr : SendOutcome) (slat : Nat) (response : Bytes) (rkr : RecvOutcome)
    (t0 t1 : Nat) :
    (c.send_and_receive request skr slat response rkr t0 t1).1.initialized =
      c.initialized := by
  unfold FastComms.send_and_receive
  dsimp only
  split
  · exact send_packet_initialized ..
  · split
    · rw [receive_packet_initialized, send_packet_initialized]
    · split
      · rw [receive_packet_initialized, send_packet_initialized]
      · rw [receive_packet_initialized, send_packet_initialized]

theorem burst_send_socket_fd (packets : List (Bytes × SendOutcome × Nat)) :
    ∀ (c : FastComms) (k : Nat),
      (packets.foldl
        (fun acc p =>
          let r := acc.1.send_packet p.1 p.2.1 p.2.2
          (r.1, if r.2 then acc.2 + 1 else acc.2)) (c, k)).1.socket_fd =
        c.socket_fd := by
  induction packets with
  | nil => intro c k; rfl
  | cons p ps ih =>
    intro c k
    simp only [List.foldl_cons]
    rw [ih]
    exact send_packet_socket_fd ..

theorem burst_send_initialized (packets : List (Bytes × SendOutcome × Nat)) :
    ∀ (c : FastComms) (k : Nat),
      (packets.foldl
        (fun acc p =>
          let r := acc.1.send_packet p.1 p.2.1 p.2.2
          (r.1, if r.2 then acc.2 + 1 else acc.2)) (c, k)).1.initialized =
        c.initialized := by
  induction packets with
  | nil => intro c k; rfl
  | cons p ps ih =>
    intro c k
    simp only [List.foldl_cons]
    rw [ih]
    exact send_packet_initialized ..

theorem stressRun_socket_fd (sends : List (SendOutcome × Nat)) :
    ∀ (c : FastComms) (psz : Nat),
      (c.stressRun psz sends).socket_fd = c.socket_fd := by
  induction sends with
  | nil => intro c psz; rfl
  | cons p ps ih =>
    intro c psz
    unfold FastComms.stressRun at ih ⊢
    simp only [List.foldl_cons]
    rw [ih]
    exact send_packet_socket_fd ..

theorem stressRun_initialized (sends : List (SendOutcome × Nat)) :
    ∀ (c : FastComms) (psz : Nat),
      (c.stressRun psz sends).initialized = c.initialized := by
  induction sends with
  | nil => intro c psz; rfl
  | cons p ps ih =>
    intro c psz
    unfold FastComms.stressRun at ih ⊢
    simp only [List.foldl_cons]
    rw [ih]
    exact send_packet_initialized ..

theorem set_timeout_socket_fd (c : FastComms) (t : Nat) (ok : Bool) :
    (c.set_timeout t ok).socket_fd = c.socket_fd := by
  unfold FastComms.set_timeout
  dsimp only
  split <;> rfl

theorem set_timeout_initialized (c : FastComms) (t : Nat) (ok : Bool) :
    (c.set_timeout t ok).initialized = c.initialized := by
  unfold FastComms.set_timeout
  dsimp only
  split <;> rfl

theorem lifecycleInv_step (c : FastComms) (op : Op) (h : LifecycleInv c) :
    LifecycleInv (step c op) := by
  unfold LifecycleInv at h ⊢
  cases op with
  | initOp sock bindOk rcvtimeoOk =>
    simp only [step]
    unfold FastComms.initChannel
    by_cases hi : c.initialized = true
    · have hfd := h.mp hi
      simp [hi, hfd]
    · have hif : c.initialized = false := by
        cases hini : c.initialized
        · rfl
        · exact absurd hini hi
      simp only [hif, Bool.false_eq_true, if_false]
      cases sock with
      | none => simp [hif]
      | some fd =>
        by_cases hb : bindOk = true
        · simp only [hb, if_true]
          by_cases hr : rcvtimeoOk = true
          · simp [hr]
          · simp [hr]
        · simp only [hb, if_false]
          simp [hif]
  | closeOp =>
    simp only [step]
    unfold FastComms.close
    split
    · simp
    · rename_i hfd
      constructor
      · intro hi
        simp at hi
      · intro hge
        exact absurd hge hfd
  | send data kr l =>
    simp only [step]
    rw [send_packet_socket_fd, send_packet_initialized]
    exact h
  | recv buffer m kr =>
    simp only [step]
    rw [receive_packet_socket_fd, receive_packet_initialized]
    exact h
  | sendRecv request skr slat response rkr t0 t1 =>
    simp only [step]
    rw [send_and_receive_socket_fd, send_and_receive_initialized]
    exact h
  | burst packets =>
    simp only [step]
    unfold FastComms.burst_send
    rw [burst_send_socket_fd, burst_send_initialized]
    exact h
  | latencyProbe payload skr slat response rkr t0 t1 =>
    simp only [step]
    unfold FastComms.measure_latency
    simp only
    rw [send_and_receive_socket_fd, send_and_receive_initialized]
    exact h
  | stress psz sends =>
    simp only [step]
    rw [stressRun_socket_fd, stressRun_initialized]
    exact h
  | setTimeout t ok =>
    simp only [step]
    rw [set_timeout_socket_fd, set_timeout_initialized]
    exact h

theorem lifecycleInv_run (ops : List Op) :
    ∀ c : FastComms, LifecycleInv c → LifecycleInv (run c ops) := by
  induction ops with
  | nil => intro c h; exact h
  | cons op ops ih =>
    intro c h
    exact ih (step c op) (lifecycleInv_step c op h)

/-- C1: on every operation sequence from a fresh endpoint, `initialized`
is true exactly when the socket handle is valid (`socket_fd ≥ 0`), and
`is_ready` returns exactly this condition. -/
theorem C1_lifecycle_invariant (name : String) (t : Nat) (ops : List Op) :
    ((run (FastComms.make name t) ops).initialized = true ↔
      0 ≤ (run (FastComms.make name t) ops).socket_fd)
    ∧ (run (FastComms.make name t) ops).is_ready =
        (run (FastComms.make name t) ops).initialized := by
  have hinv : LifecycleInv (run (FastComms.make name t) ops) := by
    apply lifecycleInv_run
    unfold LifecycleInv FastComms.make
    simp
  refine ⟨hinv, ?_⟩
  unfold FastComms.is_ready
  cases hi : (run (FastComms.make name t) ops).initialized with
  | false => simp
  | true =>
    have : 0 ≤ (run (FastComms.make name t) ops).socket_fd := hinv.mp hi
    simp [this]

/-! ### Pointwise equations for `send_packet` and `receive_packet` -/

theorem update_stats_sent (s : PacketStats) (bytes l : Nat) :
    update_stats s true bytes l =
      { packets_sent := s.packets_sent + 1,
        packets_received := s.packets_received,
        bytes_sent := s.bytes_sent + bytes,
        bytes_received := s.bytes_received,
        errors := s.errors,
        avg_latency_us :=
          if 0 < l then s.avg_latency_us * (9 / 10) + (l : Rat) * (1 / 10)
          else s.avg_latency_us } := by
  unfold update_stats
  by_cases hl : 0 < l <;> simp [hl]

theorem update_stats_received (s : PacketStats) (bytes l : Nat) :
    update_stats s false bytes l =
      { packets_sent := s.packets_sent,
        packets_received := s.packets_received + 1,
        bytes_sent := s.bytes_sent,
        bytes_received := s.bytes_received + bytes,
        errors := s.errors,
        avg_latency_us :=
          if 0 < l then s.avg_latency_us * (9 / 10) + (l : Rat) * (1 / 10)
          else s.avg_latency_us } := by
  unfold update_stats
  by_cases hl : 0 < l <;> simp [hl]

theorem send_packet_closed (c : FastComms) (data : Bytes) (kr : SendOutcome)
    (l : Nat) (h : c.initialized = false ∨ c.socket_fd < 0) :
    c.send_packet data kr l = (c, false) := by
  unfold FastComms.send_packet
  rw [if_pos h]

theorem send_packet_open_err (c : FastComms) (data : Bytes) (l : Nat)
    (h1 : c.initialized = true) (h2 : 0 ≤ c.socket_fd) :
    c.send_packet data .err l =
      ({ c with stats := { c.stats with errors := c.stats.errors + 1 } },
       false) := by
  unfold FastComms.send_packet
  rw [if_neg]
  intro hc
  rcases hc with hc | hc
  · rw [h1] at hc; exact Bool.noConfusion hc
  · omega

theorem send_packet_open_accepted (c : FastComms) (data : Bytes) (n l : Nat)
    (h1 : c.initialized = true) (h2 : 0 ≤ c.socket_fd) :
    c.send_packet data (.accepted n) l =
      ({ c with stats := update_stats c.stats true n l },
       n == data.length) := by
  unfold FastComms.send_packet
  rw [if_neg]
  intro hc
  rcases hc with hc | hc
  · rw [h1] at hc; exact Bool.noConfusion hc
  · omega

theorem receive_packet_closed (c : FastComms) (buffer : Bytes) (m : Nat)
    (kr : RecvOutcome) (h : c.initialized = false ∨ c.socket_fd < 0) :
    c.receive_packet buffer m kr = (c, -1, buffer) := by
  unfold FastComms.receive_packet
  rw [if_pos h]

theorem receive_packet_open_wouldBlock (c : FastComms) (buffer : Bytes)
    (m : Nat) (h1 : c.initialized = true) (h2 : 0 ≤ c.socket_fd) :
    c.receive_packet buffer m .wouldBlock = (c, 0, listResize buffer m) := by
  unfold FastComms.receive_packet
  rw [if_neg]
  intro hc
  rcases hc with hc | hc
  · rw [h1] at hc; exact Bool.noConfusion hc
  · omega

theorem receive_packet_open_fail (c : FastComms) (buffer : Bytes) (m : Nat)
    (h1 : c.initialized = true) (h2 : 0 ≤ c.socket_fd) :
    c.receive_packet buffer m .fail =
      ({ c with stats := { c.stats with errors := c.stats.errors + 1 } },
       -1, listResize buffer m) := by
  unfold FastComms.receive_packet
  rw [if_neg]
  intro hc
  rcases hc with hc | hc
  · rw [h1] at hc; exact Bool.noConfusion hc
  · omega

theorem receive_packet_open_frame (c : FastComms) (buffer : Bytes) (m : Nat)
    (f : Bytes) (h1 : c.initialized = true) (h2 : 0 ≤ c.socket_fd) :
    c.receive_packet buffer m (.frame f) =
      ({ c with stats := update_stats c.stats false f.length 0 },
       (f.length : Int), f) := by
  unfold FastComms.receive_packet
  rw [if_neg]
  intro hc
  rcases hc with hc | hc
  · rw [h1] at hc; exact Bool.noConfusion hc
  · omega

/-! ### C2: send_packet return value and statistics -/

/-- C2 counterexample: on the Open endpoint, a short write (the kernel
accepts 2 of the 3 bytes of the frame) makes `send_packet` return false,
yet the cumulative statistics do change: `packets_sent` grows by 1 and
`bytes_sent` by the 2 accepted bytes. This refutes the claim that the
statistics change exactly when `send_packet` returns true. -/
theorem C2_counterexample :
    (openEndpoint.send_packet [170, 187, 204] (.accepted 2) 0).2 = false
    ∧ (openEndpoint.send_packet [170, 187, 204] (.accepted 2) 0).1.stats.packets_sent
        = openEndpoint.stats.packets_sent + 1
    ∧ (openEndpoint.send_packet [170, 187, 204] (.accepted 2) 0).1.stats.bytes_sent
        = openEndpoint.stats.bytes_sent + 2 := by
  refine ⟨rfl, rfl, rfl⟩

/-- C2 (amended): for an Open endpoint, `send_packet data` returns true
iff the kernel accepted exactly `data.length` bytes. The send statistics
advance whenever the kernel accepted `n ≥ 0` bytes — also on a short
write — by `packets_sent += 1`, `bytes_sent += n` (which is `data.length`
exactly when the call returns true), with `avg_latency_us` updated from
the measured latency when that is positive; a negative kernel return
leaves them unchanged and increments `errors` by exactly 1. -/
theorem C2_send_packet_amended (c : FastComms) (data : Bytes)
    (kr : SendOutcome) (l : Nat) (h1 : c.initialized = true)
    (h2 : 0 ≤ c.socket_fd) :
    ((c.send_packet data kr l).2 = true ↔ kr = .accepted data.length)
    ∧ (∀ n, kr = .accepted n →
        (c.send_packet data kr l).1.stats =
          { packets_sent := c.stats.packets_sent + 1,
            packets_received := c.stats.packets_received,
            bytes_sent := c.stats.bytes_sent + n,
            bytes_received := c.stats.bytes_received,
            errors := c.stats.errors,
            avg_latency_us :=
              if 0 < l then
                c.stats.avg_latency_us * (9 / 10) + (l : Rat) * (1 / 10)
              else c.stats.avg_latency_us })
    ∧ (kr = .err →
        (c.send_packet data kr l).1.stats =
          { c.stats with errors := c.stats.errors + 1 }) := by
  refine ⟨?_, ?_, ?_⟩
  · cases kr with
    | err =>
      rw [send_packet_open_err c data l h1 h2]
      simp
    | accepted n =>
      rw [send_packet_open_accepted c data n l h1 h2]
      simp
  · intro n hn
    subst hn
    rw [send_packet_open_accepted c data n l h1 h2]
    exact update_stats_sent c.stats n l
  · intro hn
    subst hn
    rw [send_packet_open_err c data l h1 h2]

/-- C2 witness: the amended theorem applied to the concrete Open
endpoint, a one-byte frame fully accepted by the kernel. -/
theorem C2_witness :
    (openEndpoint.send_packet [5] (.accepted 1) 0).2 = true :=
  (C2_send_packet_amended openEndpoint [5] (.accepted 1) 0 (by decide)
    (by decide)).1.mpr rfl

/-! ### C4: short write -/

/-- C4 counterexample: on the Open endpoint, a short write (1 of 2 bytes
accepted) returns false, but the statistics are not all unchanged:
`packets_sent` grows by 1 (and `bytes_sent` by 1). This refutes the
claim that no statistics counter changes on a short write. -/
theorem C4_counterexample :
    (openEndpoint.send_packet [170, 187] (.accepted 1) 0).2 = false
    ∧ (openEndpoint.send_packet [170, 187] (.accepted 1) 0).1.stats.packets_sent
        = openEndpoint.stats.packets_sent + 1 := by
  refine ⟨rfl, rfl⟩

/-- C4 (amended): on an Open endpoint, a short write (the kernel accepts
`n < data.length` bytes) makes `send_packet` return false and leaves
`errors`, `packets_received` and `bytes_received` unchanged — but it does
count the attempt: `packets_sent` grows by 1 and `bytes_sent` by the `n`
accepted bytes. -/
theorem C4_short_write_amended (c : FastComms) (data : Bytes) (n l : Nat)
    (h1 : c.initialized = true) (h2 : 0 ≤ c.socket_fd)
    (hn : n < data.length) :
    (c.send_packet data (.accepted n) l).2 = false
    ∧ (c.send_packet data (.accepted n) l).1.stats.errors = c.stats.errors
    ∧ (c.send_packet data (.accepted n) l).1.stats.packets_received
        = c.stats.packets_received
    ∧ (c.send_packet data (.accepted n) l).1.stats.bytes_received
        = c.stats.bytes_received
    ∧ (c.send_packet data (.accepted n) l).1.stats.packets_sent
        = c.stats.packets_sent + 1
    ∧ (c.send_packet data (.accepted n) l).1.stats.bytes_sent
        = c.stats.bytes_sent + n := by
  rw [send_packet_open_accepted c data n l h1 h2, update_stats_sent]
  refine ⟨?_, rfl, rfl, rfl, rfl, rfl⟩
  exact beq_eq_false_iff_ne.mpr (Nat.ne_of_lt hn)

/-- C4 witness: the amended theorem at the concrete Open endpoint with a
2-byte frame of which the kernel accepted 1 byte. -/
theorem C4_witness :
    (openEndpoint.send_packet [1, 2] (.accepted 1) 0).2 = false :=
  (C4_short_write_amended openEndpoint [1, 2] 1 0 (by decide) (by decide)
    (by decide)).1

/-! ### C3: receive_packet timeout and failure paths -/

/-- C3 counterexample: on the Open endpoint with the default
`max_size = 4096`, a would-block receive returns 0 — but the out-buffer
is not empty: `buffer.resize(max_size)` ran before `recv` and no code
shrinks it on this path, so it holds 4096 bytes. This refutes the
claimed `(0, empty)`. -/
theorem C3_counterexample :
    (openEndpoint.receive_packet [] 4096 .wouldBlock).2.1 = 0
    ∧ (openEndpoint.receive_packet [] 4096 .wouldBlock).2.2.length = 4096 := by
  constructor
  · rfl
  · show (listResize [] 4096).length = 4096
    rw [listResize, List.take_nil, List.nil_append, List.length_replicate]
    rfl

/-- C3 (amended): on an Open endpoint, a would-block receive returns 0
with `errors` (indeed the whole state) unchanged, and any other kernel
failure returns -1 with `errors` incremented by exactly 1; on both paths
the out-buffer is left resized to `max_size` (prior contents truncated or
zero-padded), not emptied. -/
theorem C3_receive_failure_amended (c : FastComms) (buffer : Bytes)
    (m : Nat) (h1 : c.initialized = true) (h2 : 0 ≤ c.socket_fd) :
    c.receive_packet buffer m .wouldBlock = (c, 0, listResize buffer m)
    ∧ c.receive_packet buffer m .fail =
        ({ c with stats := { c.stats with errors := c.stats.errors + 1 } },
         -1, listResize buffer m) := by
  exact ⟨receive_packet_open_wouldBlock c buffer m h1 h2,
    receive_packet_open_fail c buffer m h1 h2⟩

/-- C3 witness: the amended theorem at the concrete Open endpoint with an
empty prior buffer and `max_size = 8`. -/
theorem C3_witness :
    openEndpoint.receive_packet [] 8 .wouldBlock =
      (openEndpoint, 0, listResize [] 8) :=
  (C3_receive_failure_amended openEndpoint [] 8 (by decide) (by decide)).1

/-! ### C5: send_and_receive result disambiguation -/

/-- C5: `send_and_receive` returns `success = false` with message
"Failed to send request" when the inner `send_packet` fails; otherwise
message "Failed to receive response" when the inner `receive_packet`
returns a negative value, "Response timeout" when it returns 0, and on a
positive value `success = true` with `data` the received bytes and
`latency_us` the elapsed microseconds `t1 - t0` between the reading taken
before the send and the one taken after the receive. -/
theorem C5_send_and_receive_result (c : FastComms) (request : Bytes)
    (skr : SendOutcome) (slat : Nat) (response : Bytes) (rkr : RecvOutcome)
    (t0 t1 : Nat) :
    ((c.send_packet request skr slat).2 = false →
      (c.send_and_receive request skr slat response rkr t0 t1).2.1 =
        { success := false, data := [], latency_us := 0,
          error_message := "Failed to send request" })
    ∧ ((c.send_packet request skr slat).2 = true →
        (((c.send_packet request skr slat).1.receive_packet response 4096
            rkr).2.1 < 0 →
          (c.send_and_receive request skr slat response rkr t0 t1).2.1 =
            { success := false, data := [], latency_us := 0,
              error_message := "Failed to receive response" })
        ∧ (((c.send_packet request skr slat).1.receive_packet response 4096
            rkr).2.1 = 0 →
          (c.send_and_receive request skr slat response rkr t0 t1).2.1 =
            { success := false, data := [], latency_us := 0,
              error_message := "Response timeout" })
        ∧ (0 < ((c.send_packet request skr slat).1.receive_packet response
            4096 rkr).2.1 →
          (c.send_and_receive request skr slat response rkr t0 t1).2.1 =
            { success := true,
              data := ((c.send_packet request skr slat).1.receive_packet
                response 4096 rkr).2.2,
              latency_us := t1 - t0, error_message := "" })) := by
  unfold FastComms.send_and_receive
  dsimp only
  constructor
  · intro hfail
    rw [if_pos hfail]
    rfl
  · intro htrue
    have hne : ¬((c.send_packet request skr slat).2 = false) := by
      rw [htrue]; exact fun hcontra => Bool.noConfusion hcontra
    refine ⟨?_, ?_, ?_⟩
    · intro hneg
      rw [if_neg hne, if_pos hneg]
      rfl
    · intro hzero
      rw [if_neg hne, if_neg (by omega), if_pos hzero]
      rfl
    · intro hpos
      rw [if_neg hne, if_neg (by omega), if_neg (by omega)]

/-- C5 witness: the theorem's success path at the concrete Open endpoint:
request fully accepted, a one-byte response frame, clock readings 10 and
32, so the result is success with the frame and latency 22. -/
theorem C5_witness :
    (openEndpoint.send_and_receive [7] (.accepted 1) 0 [] (.frame [9])
      10 32).2.1 =
      { success := true, data := [9], latency_us := 22,
        error_message := "" } :=
  ((C5_send_and_receive_result openEndpoint [7] (.accepted 1) 0 []
    (.frame [9]) 10 32).2 (by decide)).2.2 (by decide)

/-! ### C10: set_timeout while Closed feeds the next initChannel -/

/-- A fully successful `initChannel` on a Closed endpoint: socket
acquired, bound, and the kernel receive-timeout programmed from the
stored `timeout_ms`. -/
theorem initChannel_closed_success (c : FastComms) (fd : Nat)
    (h : c.initialized = false) :
    c.initChannel (some fd) true true =
      ({ c with
          socket_fd := (fd : Int)
          initialized := true
          kernel_rcvtimeo := some (c.timeout_ms / 1000, c.timeout_ms % 1000 * 1000) },
       true) := by
  unfold FastComms.initChannel
  rw [if_neg (by rw [h]; exact fun hc => Bool.noConfusion hc)]
  dsimp only
  rw [if_pos rfl, if_pos rfl]

/-- C10: on a Closed endpoint, `set_timeout t` is not lost: the stored
timeout becomes `t`, and a subsequent fully successful `initChannel`
programs the kernel receive-timeout from this stored `t` — as the
`timeval` pair `(t / 1000, t % 1000 * 1000)` — not from the
construction-time timeout. -/
theorem C10_set_timeout_closed (c : FastComms) (t : Nat) (ok : Bool)
    (fd : Nat) (h : c.initialized = false) :
    (c.set_timeout t ok).timeout_ms = t
    ∧ ((c.set_timeout t ok).initChannel (some fd) true true).2 = true
    ∧ ((c.set_timeout t ok).initChannel (some fd) true true).1.kernel_rcvtimeo
        = some (t / 1000, t % 1000 * 1000) := by
  have hset : c.set_timeout t ok = { c with timeout_ms := t } := by
    unfold FastComms.set_timeout
    dsimp only
    rw [if_neg]
    intro hc
    rw [h] at hc
    exact Bool.noConfusion hc.1
  have hinit := initChannel_closed_success { c with timeout_ms := t } fd h
  rw [hset, hinit]
  exact ⟨rfl, rfl, rfl⟩

/-- C10 witness: a fresh endpoint constructed with timeout 500 ms, then
`set_timeout 2500` while Closed, then a successful `initChannel`: the
kernel receive-timeout is programmed as 2 s + 500000 µs, i.e. from 2500,
not from 500. -/
theorem C10_witness :
    (((FastComms.make "eth0" 500).set_timeout 2500 false).initChannel
      (some 4) true true).1.kernel_rcvtimeo = some (2, 500000) :=
  (C10_set_timeout_closed (FastComms.make "eth0" 500) 2500 false 4
    (by decide)).2.2

/-! ### C6: counter lemmas -/

theorem open_of_not_closed (c : FastComms)
    (h : ¬(c.initialized = false ∨ c.socket_fd < 0)) :
    c.initialized = true ∧ 0 ≤ c.socket_fd := by
  push_neg at h
  refine ⟨?_, by omega⟩
  cases hi : c.initialized
  · exact absurd hi h.1
  · rfl

theorem send_packet_recv_counters (c : FastComms) (data : Bytes)
    (kr : SendOutcome) (l : Nat) :
    (c.send_packet data kr l).1.stats.packets_received
        = c.stats.packets_received
    ∧ (c.send_packet data kr l).1.stats.bytes_received
        = c.stats.bytes_received := by
  by_cases h : c.initialized = false ∨ c.socket_fd < 0
  · rw [send_packet_closed c data kr l h]; exact ⟨rfl, rfl⟩
  · obtain ⟨h1, h2⟩ := open_of_not_closed c h
    cases kr with
    | err => rw [send_packet_open_err c data l h1 h2]; exact ⟨rfl, rfl⟩
    | accepted n =>
      rw [send_packet_open_accepted c data n l h1 h2, update_stats_sent]
      exact ⟨rfl, rfl⟩

theorem send_packet_sent_le (c : FastComms) (data : Bytes)
    (kr : SendOutcome) (l : Nat) (hpos : kr.acceptedPos = true)
    (h : c.stats.packets_sent ≤ c.stats.bytes_sent) :
    (c.send_packet data kr l).1.stats.packets_sent
      ≤ (c.send_packet data kr l).1.stats.bytes_sent := by
  by_cases hcl : c.initialized = false ∨ c.socket_fd < 0
  · rw [send_packet_closed c data kr l hcl]; exact h
  · obtain ⟨h1, h2⟩ := open_of_not_closed c hcl
    cases kr with
    | err => rw [send_packet_open_err c data l h1 h2]; exact h
    | accepted n =>
      rw [send_packet_open_accepted c data n l h1 h2, update_stats_sent]
      have hn : 1 ≤ n := of_decide_eq_true hpos
      dsimp only
      omega

theorem send_packet_sent_lt (c : FastComms) (data : Bytes)
    (kr : SendOutcome) (l : Nat) (hpos : kr.acceptedPos = true)
    (h : c.stats.packets_sent < c.stats.bytes_sent) :
    (c.send_packet data kr l).1.stats.packets_sent
      < (c.send_packet data kr l).1.stats.bytes_sent := by
  by_cases hcl : c.initialized = false ∨ c.socket_fd < 0
  · rw [send_packet_closed c data kr l hcl]; exact h
  · obtain ⟨h1, h2⟩ := open_of_not_closed c hcl
    cases kr with
    | err => rw [send_packet_open_err c data l h1 h2]; exact h
    | accepted n =>
      rw [send_packet_open_accepted c data n l h1 h2, update_stats_sent]
      have hn : 1 ≤ n := of_decide_eq_true hpos
      dsimp only
      omega

theorem send_packet_big_strict (c : FastComms) (data : Bytes)
    (kr : SendOutcome) (l : Nat) (hbig : 2 ≤ data.length)
    (hres : (c.send_packet data kr l).2 = true)
    (h : c.stats.packets_sent ≤ c.stats.bytes_sent) :
    (c.send_packet data kr l).1.stats.packets_sent
      < (c.send_packet data kr l).1.stats.bytes_sent := by
  by_cases hcl : c.initialized = false ∨ c.socket_fd < 0
  · rw [send_packet_closed c data kr l hcl] at hres
    exact Bool.noConfusion hres
  · obtain ⟨h1, h2⟩ := open_of_not_closed c hcl
    cases kr with
    | err =>
      rw [send_packet_open_err c data l h1 h2] at hres
      exact Bool.noConfusion hres
    | accepted n =>
      rw [send_packet_open_accepted c data n l h1 h2] at hres
      have hn : n = data.length := by
        have := hres
        simpa using this
      rw [send_packet_open_accepted c data n l h1 h2, update_stats_sent]
      dsimp only
      omega

theorem receive_packet_sent_counters (c : FastComms) (buffer : Bytes)
    (m : Nat) (kr : RecvOutcome) :
    (c.receive_packet buffer m kr).1.stats.packets_sent
        = c.stats.packets_sent
    ∧ (c.receive_packet buffer m kr).1.stats.bytes_sent
        = c.stats.bytes_sent := by
  by_cases h : c.initialized = false ∨ c.socket_fd < 0
  · rw [receive_packet_closed c buffer m kr h]; exact ⟨rfl, rfl⟩
  · obtain ⟨h1, h2⟩ := open_of_not_closed c h
    cases kr with
    | wouldBlock =>
      rw [receive_packet_open_wouldBlock c buffer m h1 h2]; exact ⟨rfl, rfl⟩
    | fail => rw [receive_packet_open_fail c buffer m h1 h2]; exact ⟨rfl, rfl⟩
    | frame f =>
      rw [receive_packet_open_frame c buffer m f h1 h2, update_stats_received]
      exact ⟨rfl, rfl⟩

theorem receive_packet_recv_le (c : FastComms) (buffer : Bytes)
    (m : Nat) (kr : RecvOutcome) (hpos : kr.framePos = true)
    (h : c.stats.packets_received ≤ c.stats.bytes_received) :
    (c.receive_packet buffer m kr).1.stats.packets_received
      ≤ (c.receive_packet buffer m kr).1.stats.bytes_received := by
  by_cases hcl : c.initialized = false ∨ c.socket_fd < 0
  · rw [receive_packet_closed c buffer m kr hcl]; exact h
  · obtain ⟨h1, h2⟩ := open_of_not_closed c hcl
    cases kr with
    | wouldBlock =>
      rw [receive_packet_open_wouldBlock c buffer m h1 h2]; exact h
    | fail => rw [receive_packet_open_fail c buffer m h1 h2]; exact h
    | frame f =>
      rw [receive_packet_open_frame c buffer m f h1 h2, update_stats_received]
      have hf : 1 ≤ f.length := of_decide_eq_true hpos
      dsimp only
      omega

theorem initChannel_stats (c : FastComms) (sock : Option Nat)
    (bindOk rcvtimeoOk : Bool) :
    (c.initChannel sock bindOk rcvtimeoOk).1.stats = c.stats := by
  unfold FastComms.initChannel
  split
  · rfl
  · cases sock with
    | none => rfl
    | some fd =>
      dsimp only
      split
      · dsimp only
        split <;> rfl
      · rfl

theorem close_stats (c : FastComms) : c.close.stats = c.stats := by
  unfold FastComms.close
  split <;> rfl

theorem set_timeout_stats (c : FastComms) (t : Nat) (ok : Bool) :
    (c.set_timeout t ok).stats = c.stats := by
  unfold FastComms.set_timeout
  dsimp only
  split <;> rfl

theorem send_and_receive_state_eq (c : FastComms) (request : Bytes)
    (skr : SendOutcome) (slat : Nat) (response : Bytes) (rkr : RecvOutcome)
    (t0 t1 : Nat) :
    (c.send_and_receive request skr slat response rkr t0 t1).1 =
      if (c.send_packet request skr slat).2 = true then
        ((c.send_packet request skr slat).1.receive_packet response 4096
          rkr).1
      else (c.send_packet request skr slat).1 := by
  unfold FastComms.send_and_receive
  dsimp only
  by_cases hs2 : (c.send_packet request skr slat).2 = false
  · have hs3 : ¬((c.send_packet request skr slat).2 = true) := by
      rw [hs2]; exact fun hcontra => Bool.noConfusion hcontra
    rw [if_pos hs2, if_neg hs3]
  · have hs3 : (c.send_packet request skr slat).2 = true := by
      cases h2 : (c.send_packet request skr slat).2
      · exact absurd h2 hs2
      · rfl
    rw [if_neg hs2, if_pos hs3]
    split
    · rfl
    · split <;> rfl

theorem measure_latency_state_eq (c : FastComms) (payload : Bytes)
    (skr : SendOutcome) (slat : Nat) (response : Bytes) (rkr : RecvOutcome)
    (t0 t1 : Nat) :
    (c.measure_latency payload skr slat response rkr t0 t1).1 =
      (c.send_and_receive payload skr slat response rkr t0 t1).1 := rfl

theorem burst_send_state (packets : List (Bytes × SendOutcome × Nat)) :
    ∀ (c : FastComms) (k : Nat),
      (packets.foldl
        (fun acc p =>
          let r := acc.1.send_packet p.1 p.2.1 p.2.2
          (r.1, if r.2 then acc.2 + 1 else acc.2)) (c, k)).1 =
      packets.foldl (fun st p => (st.send_packet p.1 p.2.1 p.2.2).1) c := by
  induction packets with
  | nil => intro c k; rfl
  | cons p ps ih =>
    intro c k
    simp only [List.foldl_cons]
    exact ih _ _

/-- All counter facts about a fold of `send_packet`s (the state effect of
`burst_send`), in one induction: receive counters unchanged, the send
invariant and its strict form preserved, and strictness established by a
successful send of a packet longer than one byte. -/
theorem sendFold_stats (packets : List (Bytes × SendOutcome × Nat)) :
    ∀ c : FastComms, (∀ p ∈ packets, p.2.1.acceptedPos = true) →
      ((packets.foldl (fun st p => (st.send_packet p.1 p.2.1 p.2.2).1)
          c).stats.packets_received = c.stats.packets_received)
      ∧ ((packets.foldl (fun st p => (st.send_packet p.1 p.2.1 p.2.2).1)
          c).stats.bytes_received = c.stats.bytes_received)
      ∧ (c.stats.packets_sent ≤ c.stats.bytes_sent →
          (packets.foldl (fun st p => (st.send_packet p.1 p.2.1 p.2.2).1)
            c).stats.packets_sent
            ≤ (packets.foldl (fun st p => (st.send_packet p.1 p.2.1 p.2.2).1)
                c).stats.bytes_sent)
      ∧ (c.stats.packets_sent < c.stats.bytes_sent →
          (packets.foldl (fun st p => (st.send_packet p.1 p.2.1 p.2.2).1)
            c).stats.packets_sent
            < (packets.foldl (fun st p => (st.send_packet p.1 p.2.1 p.2.2).1)
                c).stats.bytes_sent)
      ∧ (c.stats.packets_sent ≤ c.stats.bytes_sent →
          burstBigSend c packets = true →
          (packets.foldl (fun st p => (st.send_packet p.1 p.2.1 p.2.2).1)
            c).stats.packets_sent
            < (packets.foldl (fun st p => (st.send_packet p.1 p.2.1 p.2.2).1)
                c).stats.bytes_sent) := by
  induction packets with
  | nil =>
    intro c _
    exact ⟨rfl, rfl, fun h => h, fun h => h,
      fun _ hbig => Bool.noConfusion hbig⟩
  | cons p ps ih =>
    intro c hall
    have hp : p.2.1.acceptedPos = true := hall p (List.mem_cons_self p ps)
    have htail : ∀ q ∈ ps, q.2.1.acceptedPos = true :=
      fun q hq => hall q (List.mem_cons_of_mem p hq)
    have ihs := ih (c.send_packet p.1 p.2.1 p.2.2).1 htail
    simp only [List.foldl_cons]
    refine ⟨?_, ?_, ?_, ?_, ?_⟩
    · exact ihs.1.trans (send_packet_recv_counters c p.1 p.2.1 p.2.2).1
    · exact ihs.2.1.trans (send_packet_recv_counters c p.1 p.2.1 p.2.2).2
    · intro h
      exact ihs.2.2.1 (send_packet_sent_le c p.1 p.2.1 p.2.2 hp h)
    · intro h
      exact ihs.2.2.2.1 (send_packet_sent_lt c p.1 p.2.1 p.2.2 hp h)
    · intro h hbig
      have hsplit :
          (decide (2 ≤ p.1.length) && (c.send_packet p.1 p.2.1 p.2.2).2)
            = true
          ∨ burstBigSend (c.send_packet p.1 p.2.1 p.2.2).1 ps = true := by
        rw [burstBigSend] at hbig
        exact (Bool.or_eq_true _ _).mp hbig
      rcases hsplit with hhead | htl
      · obtain ⟨hlen, hok⟩ := (Bool.and_eq_true _ _).mp hhead
        exact ihs.2.2.2.1
          (send_packet_big_strict c p.1 p.2.1 p.2.2
            (of_decide_eq_true hlen) hok h)
      · exact ihs.2.2.2.2 (send_packet_sent_le c p.1 p.2.1 p.2.2 hp h) htl

theorem stressRun_cons (c : FastComms) (psz : Nat) (p : SendOutcome × Nat)
    (ps : List (SendOutcome × Nat)) :
    c.stressRun psz (p :: ps) =
      ((c.send_packet (List.replicate psz 0xAA) p.1 p.2).1).stressRun psz
        ps := by
  unfold FastComms.stressRun
  simp only [List.foldl_cons]

/-- The same counter facts for the state effect of a `stress_test` run. -/
theorem stressRun_stats (sends : List (SendOutcome × Nat)) :
    ∀ (c : FastComms) (psz : Nat),
      (∀ p ∈ sends, p.1.acceptedPos = true) →
      ((c.stressRun psz sends).stats.packets_received
          = c.stats.packets_received)
      ∧ ((c.stressRun psz sends).stats.bytes_received
          = c.stats.bytes_received)
      ∧ (c.stats.packets_sent ≤ c.stats.bytes_sent →
          (c.stressRun psz sends).stats.packets_sent
            ≤ (c.stressRun psz sends).stats.bytes_sent)
      ∧ (c.stats.packets_sent < c.stats.bytes_sent →
          (c.stressRun psz sends).stats.packets_sent
            < (c.stressRun psz sends).stats.bytes_sent)
      ∧ (c.stats.packets_sent ≤ c.stats.bytes_sent →
          stressBigSend psz c sends = true →
          (c.stressRun psz sends).stats.packets_sent
            < (c.stressRun psz sends).stats.bytes_sent) := by
  induction sends with
  | nil =>
    intro c psz _
    exact ⟨rfl, rfl, fun h => h, fun h => h,
      fun _ hbig => Bool.noConfusion hbig⟩
  | cons p ps ih =>
    intro c psz hall
    have hp : p.1.acceptedPos = true := hall p (List.mem_cons_self p ps)
    have htail : ∀ q ∈ ps, q.1.acceptedPos = true :=
      fun q hq => hall q (List.mem_cons_of_mem p hq)
    have ihs := ih (c.send_packet (List.replicate psz 0xAA) p.1 p.2).1 psz
      htail
    rw [stressRun_cons]
    refine ⟨?_, ?_, ?_, ?_, ?_⟩
    · exact ihs.1.trans
        (send_packet_recv_counters c (List.replicate psz 0xAA) p.1 p.2).1
    · exact ihs.2.1.trans
        (send_packet_recv_counters c (List.replicate psz 0xAA) p.1 p.2).2
    · intro h
      exact ihs.2.2.1
        (send_packet_sent_le c (List.replicate psz 0xAA) p.1 p.2 hp h)
    · intro h
      exact ihs.2.2.2.1
        (send_packet_sent_lt c (List.replicate psz 0xAA) p.1 p.2 hp h)
    · intro h hbig
      have hsplit :
          (decide (2 ≤ psz)
            && (c.send_packet (List.replicate psz 0xAA) p.1 p.2).2) = true
          ∨ stressBigSend psz
              (c.send_packet (List.replicate psz 0xAA) p.1 p.2).1 ps
              = true := by
        rw [stressBigSend] at hbig
        exact (Bool.or_eq_true _ _).mp hbig
      rcases hsplit with hhead | htl
      · obtain ⟨hlen, hok⟩ := (Bool.and_eq_true _ _).mp hhead
        have hlen2 : 2 ≤ (List.replicate psz 0xAA).length := by
          rw [List.length_replicate]
          exact of_decide_eq_true hlen
        exact ihs.2.2.2.1
          (send_packet_big_strict c (List.replicate psz 0xAA) p.1 p.2
            hlen2 hok h)
      · exact ihs.2.2.2.2
          (send_packet_sent_le c (List.replicate psz 0xAA) p.1 p.2 hp h) htl

/-- The counter facts for the state effect of one `send_and_receive`. -/
theorem sar_step_stats (c : FastComms) (req : Bytes) (skr : SendOutcome)
    (slat : Nat) (resp : Bytes) (rkr : RecvOutcome) (t0 t1 : Nat)
    (hs : skr.acceptedPos = true) (hr : rkr.framePos = true) :
    (c.stats.packets_sent ≤ c.stats.bytes_sent →
      (c.send_and_receive req skr slat resp rkr t0 t1).1.stats.packets_sent
        ≤ (c.send_and_receive req skr slat resp rkr t0 t1).1.stats.bytes_sent)
    ∧ (c.stats.packets_received ≤ c.stats.bytes_received →
      (c.send_and_receive req skr slat resp rkr t0
        t1).1.stats.packets_received
        ≤ (c.send_and_receive req skr slat resp rkr t0
            t1).1.stats.bytes_received)
    ∧ (c.stats.packets_sent < c.stats.bytes_sent →
      (c.send_and_receive req skr slat resp rkr t0 t1).1.stats.packets_sent
        < (c.send_and_receive req skr slat resp rkr t0 t1).1.stats.bytes_sent)
    ∧ (c.stats.packets_sent ≤ c.stats.bytes_sent →
      (decide (2 ≤ req.length) && (c.send_packet req skr slat).2) = true →
      (c.send_and_receive req skr slat resp rkr t0 t1).1.stats.packets_sent
        < (c.send_and_receive req skr slat resp rkr t0
            t1).1.stats.bytes_sent) := by
  rw [send_and_receive_state_eq]
  by_cases hok : (c.send_packet req skr slat).2 = true
  · rw [if_pos hok]
    have hsc := receive_packet_sent_counters
      (c.send_packet req skr slat).1 resp 4096 rkr
    have hrc := send_packet_recv_counters c req skr slat
    refine ⟨?_, ?_, ?_, ?_⟩
    · intro h
      rw [hsc.1, hsc.2]
      exact send_packet_sent_le c req skr slat hs h
    · intro h
      apply receive_packet_recv_le _ _ _ _ hr
      rw [hrc.1, hrc.2]
      exact h
    · intro h
      rw [hsc.1, hsc.2]
      exact send_packet_sent_lt c req skr slat hs h
    · intro h hbig
      obtain ⟨hlen, hok2⟩ := (Bool.and_eq_true _ _).mp hbig
      rw [hsc.1, hsc.2]
      exact send_packet_big_strict c req skr slat
        (of_decide_eq_true hlen) hok2 h
  · rw [if_neg hok]
    have hrc := send_packet_recv_counters c req skr slat
    refine ⟨?_, ?_, ?_, ?_⟩
    · intro h
      exact send_packet_sent_le c req skr slat hs h
    · intro h
      rw [hrc.1, hrc.2]
      exact h
    · intro h
      exact send_packet_sent_lt c req skr slat hs h
    · intro h hbig
      obtain ⟨hlen, hok2⟩ := (Bool.and_eq_true _ _).mp hbig
      exact absurd hok2 hok

/-- The counter facts for one operation of a trace: the two `≤`
invariants are preserved, the strict send inequality is preserved, and a
successful in-operation send of a packet longer than one byte
establishes it. -/
theorem stats_step (c : FastComms) (op : Op)
    (hs : op.sendsPos = true) (hr : op.recvsPos = true) :
    (c.stats.packets_sent ≤ c.stats.bytes_sent →
      (step c op).stats.packets_sent ≤ (step c op).stats.bytes_sent)
    ∧ (c.stats.packets_received ≤ c.stats.bytes_received →
      (step c op).stats.packets_received
        ≤ (step c op).stats.bytes_received)
    ∧ (c.stats.packets_sent < c.stats.bytes_sent →
      (step c op).stats.packets_sent < (step c op).stats.bytes_sent)
    ∧ (c.stats.packets_sent ≤ c.stats.bytes_sent →
      bigSendInOp c op = true →
      (step c op).stats.packets_sent < (step c op).stats.bytes_sent) := by
  cases op with
  | initOp sock bindOk rcvtimeoOk =>
    simp only [step]
    rw [initChannel_stats]
    exact ⟨fun h => h, fun h => h, fun h => h,
      fun _ hbig => Bool.noConfusion hbig⟩
  | closeOp =>
    simp only [step]
    rw [close_stats]
    exact ⟨fun h => h, fun h => h, fun h => h,
      fun _ hbig => Bool.noConfusion hbig⟩
  | setTimeout t ok =>
    simp only [step]
    rw [set_timeout_stats]
    exact ⟨fun h => h, fun h => h, fun h => h,
      fun _ hbig => Bool.noConfusion hbig⟩
  | send data kr l =>
    simp only [step]
    have hrc := send_packet_recv_counters c data kr l
    refine ⟨fun h => send_packet_sent_le c data kr l hs h, fun h => ?_,
      fun h => send_packet_sent_lt c data kr l hs h, fun h hbig => ?_⟩
    · rw [hrc.1, hrc.2]
      exact h
    · obtain ⟨hlen, hok⟩ := (Bool.and_eq_true _ _).mp hbig
      exact send_packet_big_strict c data kr l
        (of_decide_eq_true hlen) hok h
  | recv buffer m kr =>
    simp only [step]
    have hsc := receive_packet_sent_counters c buffer m kr
    refine ⟨fun h => ?_, fun h => receive_packet_recv_le c buffer m kr hr h,
      fun h => ?_, fun _ hbig => Bool.noConfusion hbig⟩
    · rw [hsc.1, hsc.2]; exact h
    · rw [hsc.1, hsc.2]; exact h
  | sendRecv req skr slat resp rkr t0 t1 =>
    simp only [step]
    exact sar_step_stats c req skr slat resp rkr t0 t1 hs hr
  | latencyProbe payload skr slat resp rkr t0 t1 =>
    simp only [step]
    rw [measure_latency_state_eq]
    exact sar_step_stats c payload skr slat resp rkr t0 t1 hs hr
  | burst packets =>
    simp only [step]
    unfold FastComms.burst_send
    rw [burst_send_state packets c 0]
    have hx : packets.all (fun p => p.2.1.acceptedPos) = true := hs
    have hall : ∀ p ∈ packets, p.2.1.acceptedPos = true := by
      intro p hp
      exact List.all_eq_true.mp hx p hp
    have hf := sendFold_stats packets c hall
    refine ⟨fun h => hf.2.2.1 h, fun h => ?_, fun h => hf.2.2.2.1 h,
      fun h hbig => hf.2.2.2.2 h hbig⟩
    rw [hf.1, hf.2.1]
    exact h
  | stress psz sends =>
    simp only [step]
    have hx : sends.all (fun p => p.1.acceptedPos) = true := hs
    have hall : ∀ p ∈ sends, p.1.acceptedPos = true := by
      intro p hp
      exact List.all_eq_true.mp hx p hp
    have hf := stressRun_stats sends c psz hall
    refine ⟨fun h => hf.2.2.1 h, fun h => ?_, fun h => hf.2.2.2.1 h,
      fun h hbig => hf.2.2.2.2 h hbig⟩
    rw [hf.1, hf.2.1]
    exact h

/-- The counter facts along a whole trace. -/
theorem stats_run (ops : List Op) :
    ∀ c : FastComms, (∀ op ∈ ops, op.sendsPos = true) →
      (∀ op ∈ ops, op.recvsPos = true) →
      (c.stats.packets_sent ≤ c.stats.bytes_sent →
        (run c ops).stats.packets_sent ≤ (run c ops).stats.bytes_sent)
      ∧ (c.stats.packets_received ≤ c.stats.bytes_received →
        (run c ops).stats.packets_received
          ≤ (run c ops).stats.bytes_received)
      ∧ (c.stats.packets_sent < c.stats.bytes_sent →
        (run c ops).stats.packets_sent < (run c ops).stats.bytes_sent)
      ∧ (c.stats.packets_sent ≤ c.stats.bytes_sent →
        hasBigSend c ops = true →
        (run c ops).stats.packets_sent < (run c ops).stats.bytes_sent) := by
  induction ops with
  | nil =>
    intro c _ _
    exact ⟨fun h => h, fun h => h, fun h => h,
      fun _ hbig => Bool.noConfusion hbig⟩
  | cons op ops ih =>
    intro c hsend hrecv
    have hstep := stats_step c op (hsend op (List.mem_cons_self op ops))
      (hrecv op (List.mem_cons_self op ops))
    have ihs := ih (step c op)
      (fun o ho => hsend o (List.mem_cons_of_mem op ho))
      (fun o ho => hrecv o (List.mem_cons_of_mem op ho))
    refine ⟨fun h => ihs.1 (hstep.1 h), fun h => ihs.2.1 (hstep.2.1 h),
      fun h => ihs.2.2.1 (hstep.2.2.1 h), fun h hbig => ?_⟩
    have hsplit : bigSendInOp c op = true
        ∨ hasBigSend (step c op) ops = true := by
      rw [hasBigSend] at hbig
      exact (Bool.or_eq_true _ _).mp hbig
    rcases hsplit with hhead | htl
    · exact ihs.2.2.1 (hstep.2.2.2 h hhead)
    · exact ihs.2.2.2 (hstep.1 h) htl

/-! ### C6: the statistics invariant -/

/-- C6 counterexample: from a fresh endpoint, open it, then receive one
zero-length frame (the kernel's `recv` returning 0, which the code counts
through `update_stats(false, 0, 0)`). No send ever happened — so every
sent packet vacuously carried at least 1 byte — yet
`packets_received = 1 > 0 = bytes_received`, refuting the claimed
`bytes_received ≥ packets_received`. -/
theorem C6_counterexample :
    (run (FastComms.make "eth0" 1000)
      [.initOp (some 3) true true,
       .recv [] 4096 (.frame [])]).stats.packets_received = 1
    ∧ (run (FastComms.make "eth0" 1000)
      [.initOp (some 3) true true,
       .recv [] 4096 (.frame [])]).stats.bytes_received = 0 := by
  refine ⟨rfl, rfl⟩

/-- C6 (amended): over every operation sequence from a fresh endpoint in
which every kernel-accepted send covers at least 1 byte (in particular,
every sent packet carries at least 1 byte and no accepted count is 0) and
every received frame carries at least 1 byte, the cumulative statistics
satisfy `bytes_sent ≥ packets_sent` and `bytes_received ≥
packets_received` at every point, with `bytes_sent > packets_sent`
whenever some successfully sent packet exceeded 1 byte. -/
theorem C6_stats_invariant_amended (name : String) (t : Nat) (ops : List Op)
    (hsend : ∀ op ∈ ops, op.sendsPos = true)
    (hrecv : ∀ op ∈ ops, op.recvsPos = true) :
    ((run (FastComms.make name t) ops).stats.packets_sent
      ≤ (run (FastComms.make name t) ops).stats.bytes_sent)
    ∧ ((run (FastComms.make name t) ops).stats.packets_received
      ≤ (run (FastComms.make name t) ops).stats.bytes_received)
    ∧ (hasBigSend (FastComms.make name t) ops = true →
      (run (FastComms.make name t) ops).stats.packets_sent
        < (run (FastComms.make name t) ops).stats.bytes_sent) := by
  have hst := stats_run ops (FastComms.make name t) hsend hrecv
  exact ⟨hst.1 (Nat.le_refl 0), hst.2.1 (Nat.le_refl 0),
    fun hbig => hst.2.2.2 (Nat.le_refl 0) hbig⟩

/-- C6 witness: open the endpoint and successfully send a 2-byte frame;
the amended theorem yields the strict inequality
`packets_sent < bytes_sent`. -/
theorem C6_witness :
    (run (FastComms.make "eth0" 1000)
      [.initOp (some 3) true true,
       .send [1, 2] (.accepted 2) 0]).stats.packets_sent
      < (run (FastComms.make "eth0" 1000)
      [.initOp (some 3) true true,
       .send [1, 2] (.accepted 2) 0]).stats.bytes_sent :=
  (C6_stats_invariant_amended "eth0" 1000
    [.initOp (some 3) true true, .send [1, 2] (.accepted 2) 0]
    (by decide) (by decide)).2.2 (by decide)

/-! ### C7: stress_test at duration 0 and termination -/

/-- Every terminating `stressLoop` execution leaves the endpoint in the
state of a fold of `send_packet`s of the test frame over the kernel
outcomes its iterations consumed — this ties `stress_test` to the
`Op.stress` trace operation. -/
theorem stressLoop_state_fold (pkt : Bytes) (endTime : Nat)
    (clock : Nat → Nat) (oracle : Nat → SendOutcome × Nat) :
    ∀ (fuel k : Nat) (acc ts : PacketStats) (c c2 : FastComms),
      FastComms.stressLoop pkt endTime clock oracle fuel k acc c
        = some (ts, c2) →
      ∃ sends : List (SendOutcome × Nat),
        c2 = sends.foldl (fun st p => (st.send_packet pkt p.1 p.2).1) c := by
  intro fuel
  induction fuel with
  | zero =>
    intro k acc ts c c2 h
    unfold FastComms.stressLoop at h
    split at h
    · exact Option.noConfusion h
    · injection h with h12
      injection h12 with ha hc
      exact ⟨[], hc.symm⟩
  | succ fuel ih =>
    intro k acc ts c c2 h
    unfold FastComms.stressLoop at h
    split at h
    · obtain ⟨sends, hsends⟩ := ih (k + 1) _ ts _ c2 h
      refine ⟨(oracle k) :: sends, ?_⟩
      rw [List.foldl_cons]
      exact hsends
    · injection h with h12
      injection h12 with ha hc
      exact ⟨[], hc.symm⟩

/-- A terminating `stress_test` leaves the endpoint in the state of some
`stressRun`. -/
theorem stress_test_state (c : FastComms) (duration_ms packet_size : Nat)
    (clock : Nat → Nat) (oracle : Nat → SendOutcome × Nat) (fuel : Nat)
    (ts : PacketStats) (c2 : FastComms)
    (h : c.stress_test duration_ms packet_size clock oracle fuel
      = some (ts, c2)) :
    ∃ sends : List (SendOutcome × Nat), c2 = c.stressRun packet_size sends := by
  unfold FastComms.stress_test at h
  obtain ⟨sends, hsends⟩ := stressLoop_state_fold _ _ _ _ _ _ _ _ _ _ h
  exact ⟨sends, hsends⟩

/-- C7 counterexample: on the Open endpoint with `duration_ms = 0` and
the identity clock (reading `j` at call `j`, so strictly monotonic), the
very first loop check already sees the deadline passed: `stress_test`
returns the all-zero local stats and the untouched endpoint —
zero send attempts, refuting the claimed "at least one attempt". -/
theorem C7_counterexample :
    openEndpoint.stress_test 0 64 (fun j => j)
      (fun _ => (SendOutcome.err, 0)) 10
      = some (PacketStats.zero, openEndpoint)
    ∧ PacketStats.zero.packets_sent + PacketStats.zero.errors = 0 := by
  refine ⟨rfl, rfl⟩

/-- The loop of `stress_test` returns once some checked clock index `m`
has reached the deadline, provided the fuel covers index `m`. -/
theorem stressLoop_isSome (pkt : Bytes) (endTime : Nat) (clock : Nat → Nat)
    (oracle : Nat → SendOutcome × Nat) (m : Nat) (hm : endTime ≤ clock m) :
    ∀ (fuel k : Nat) (acc : PacketStats) (c : FastComms),
      k ≤ m → m ≤ k + fuel →
      (FastComms.stressLoop pkt endTime clock oracle fuel k acc
        c).isSome = true := by
  intro fuel
  induction fuel with
  | zero =>
    intro k acc c hk hk2
    have hkm : k = m := by omega
    subst hkm
    unfold FastComms.stressLoop
    rw [if_neg (by omega)]
    rfl
  | succ fuel ih =>
    intro k acc c hk hk2
    unfold FastComms.stressLoop
    by_cases hlt : clock k < endTime
    · rw [if_pos hlt]
      have hkm : k ≠ m := by
        intro he
        subst he
        omega
      exact ih (k + 1) _ _ (by omega) (by omega)
    · rw [if_neg hlt]
      rfl

/-- C7 (amended): with a non-decreasing (monotonic) clock,
`stress_test(0, packet_size)` performs zero send attempts — it returns
the all-zero local statistics and the unchanged endpoint, whatever the
fuel — and `stress_test(duration_ms, packet_size)` does not hang: it
returns as soon as some clock reading at index `k ≥ 1` within the fuel
reaches `clock 0 + duration_ms · 1000`. -/
theorem C7_stress_test_amended (c : FastComms) (packet_size : Nat)
    (clock : Nat → Nat) (oracle : Nat → SendOutcome × Nat)
    (fuel duration_ms k : Nat)
    (hmono : ∀ i j : Nat, i ≤ j → clock i ≤ clock j) :
    (c.stress_test 0 packet_size clock oracle fuel
      = some (PacketStats.zero, c))
    ∧ (1 ≤ k → k ≤ 1 + fuel → clock 0 + duration_ms * 1000 ≤ clock k →
      (c.stress_test duration_ms packet_size clock oracle fuel).isSome
        = true) := by
  constructor
  · have h01 : clock 0 ≤ clock 1 := hmono 0 1 (by omega)
    cases fuel with
    | zero =>
      unfold FastComms.stress_test FastComms.stressLoop
      rw [if_neg (by omega)]
    | succ f =>
      unfold FastComms.stress_test FastComms.stressLoop
      rw [if_neg (by omega)]
  · intro h1 hk hclk
    unfold FastComms.stress_test
    exact stressLoop_isSome (List.replicate packet_size 0xAA)
      (clock 0 + duration_ms * 1000) clock oracle k hclk fuel 1
      PacketStats.zero c h1 (by omega)

/-- C7 witness: the amended theorem at the Open endpoint: with the
identity clock and duration 0 the call returns at once with zero
attempts; with clock readings `j · 3000` and duration 2 ms the deadline
2000 is reached at index 1, within fuel 3, so the call returns. -/
theorem C7_witness :
    (openEndpoint.stress_test 0 64 (fun j => j)
      (fun _ => (SendOutcome.err, 0)) 3
      = some (PacketStats.zero, openEndpoint))
    ∧ (openEndpoint.stress_test 2 64 (fun j => j * 3000)
      (fun _ => (SendOutcome.err, 0)) 3).isSome = true :=
  ⟨(C7_stress_test_amended openEndpoint 64 (fun j => j)
      (fun _ => (SendOutcome.err, 0)) 3 0 1
      (fun i j h => h)).1,
   (C7_stress_test_amended openEndpoint 64 (fun j => j * 3000)
      (fun _ => (SendOutcome.err, 0)) 3 2 1
      (fun i j h => Nat.mul_le_mul_right 3000 h)).2
      (by decide) (by decide) (by decide)⟩

/-! ### C8: the CRC-32 implementation matches the reflected CRC-32 -/

theorem xor_div_two (a b : Nat) : (a ^^^ b) / 2 = a / 2 ^^^ b / 2 := by
  apply Nat.eq_of_testBit_eq
  intro i
  rw [Nat.testBit_div_two, Nat.testBit_xor, Nat.testBit_xor,
    Nat.testBit_div_two, Nat.testBit_div_two]

theorem xor_mod_two (a b : Nat) : (a ^^^ b) % 2 = (a ^^^ b % 2) % 2 := by
  have h1 : (a ^^^ b).testBit 0 = (a ^^^ b % 2).testBit 0 := by
    rw [Nat.testBit_xor, Nat.testBit_xor]
    have hb : b % 2 % 2 = b % 2 := by omega
    rw [Nat.testBit_zero, Nat.testBit_zero, Nat.testBit_zero, hb]
  rw [Nat.testBit_zero, Nat.testBit_zero] at h1
  have h3 : ((a ^^^ b) % 2 = 1) ↔ ((a ^^^ b % 2) % 2 = 1) :=
    decide_eq_decide.mp h1
  omega

/-- Feeding a whole byte into the register and taking one shift step is
the same as feeding only the byte's low bit and carrying the rest of the
byte along. -/
theorem crcBitStep_xor (c b : Nat) :
    crcBitStep (c ^^^ b) = crcSpecBitStep c (b % 2) ^^^ b / 2 := by
  unfold crcBitStep crcSpecBitStep
  have hmod := xor_mod_two c b
  by_cases h : (c ^^^ b) % 2 = 1
  · rw [if_pos h, if_pos (by omega : (c ^^^ b % 2) % 2 = 1), xor_div_two,
      Nat.xor_assoc, Nat.xor_assoc, Nat.xor_comm (b / 2)]
  · rw [if_neg h, if_neg (by omega : ¬(c ^^^ b % 2) % 2 = 1)]
    exact xor_div_two c b

/-- `k` iterations of the code's shift step over `register ^^^ byte` feed
the byte's `k` low bits (least significant first) into the spec's
bit-serial step, carrying the remaining `b / 2 ^ k` along. -/
theorem iterate_crcBitStep (k : Nat) : ∀ c b : Nat,
    crcBitStep^[k] (c ^^^ b) =
      (((List.range k).map (fun i => b / 2 ^ i % 2)).foldl crcSpecBitStep c)
        ^^^ b / 2 ^ k := by
  induction k with
  | zero =>
    intro c b
    simp
  | succ k ih =>
    intro c b
    rw [Function.iterate_succ_apply, crcBitStep_xor,
      ih (crcSpecBitStep c (b % 2)) (b / 2)]
    have hdiv : b / 2 / 2 ^ k = b / 2 ^ (k + 1) := by
      rw [Nat.div_div_eq_div_mul, pow_succ, mul_comm (2 ^ k) 2]
    have hlist : (List.range (k + 1)).map (fun i => b / 2 ^ i % 2)
        = (b % 2) :: (List.range k).map (fun i => b / 2 / 2 ^ i % 2) := by
      rw [List.range_succ_eq_map, List.map_cons, List.map_map]
      have hhead : b / 2 ^ 0 % 2 = b % 2 := by norm_num
      rw [hhead]
      have hcomp : ((fun i => b / 2 ^ i % 2) ∘ Nat.succ)
          = fun i => b / 2 / 2 ^ i % 2 := by
        funext i
        show b / 2 ^ (i + 1) % 2 = b / 2 / 2 ^ i % 2
        rw [Nat.div_div_eq_div_mul, pow_succ, mul_comm (2 ^ i) 2]
      rw [hcomp]
    rw [hlist, List.foldl_cons, hdiv]

/-- Per byte, the code's `crc ^= byte` followed by eight shift steps is
the spec's bit-serial processing of the byte's bits, LSB first. -/
theorem crcByteStep_spec (c b : Nat) (hb : b < 256) :
    crcByteStep c b = (byteBitsLSB b).foldl crcSpecBitStep c := by
  unfold crcByteStep
  rw [iterate_crcBitStep 8 c b]
  have hzero : b / 2 ^ 8 = 0 := Nat.div_eq_of_lt hb
  rw [hzero, Nat.xor_zero]
  have hlist : (List.range 8).map (fun i => b / 2 ^ i % 2) = byteBitsLSB b := by
    have hr : List.range 8 = [0, 1, 2, 3, 4, 5, 6, 7] := by decide
    rw [hr]
    simp only [List.map_cons, List.map_nil]
    unfold byteBitsLSB
    norm_num
  rw [hlist]

theorem crc_fold_spec (data : Bytes) : ∀ crc : Nat, BytesWF data →
    data.foldl crcByteStep crc =
      data.foldl (fun c b => (byteBitsLSB b).foldl crcSpecBitStep c) crc := by
  induction data with
  | nil => intro crc _; rfl
  | cons b rest ih =>
    intro crc hwf
    rw [List.foldl_cons, List.foldl_cons,
      crcByteStep_spec crc b (hwf b (List.mem_cons_self b rest))]
    exact ih _ (fun x hx => hwf x (List.mem_cons_of_mem b hx))

/-- C8: `calculate_crc32` implements the reflected CRC-32 (polynomial
0xEDB88320, initial register 0xFFFFFFFF, final xor 0xFFFFFFFF, message
bits LSB first) on every well-formed byte sequence, and matches the two
known-answer values: 0 for the empty sequence and 0xCBF43926 for the
ASCII bytes of "123456789". -/
theorem C8_crc32_reflected :
    (∀ data : Bytes, BytesWF data → calculate_crc32 data = crc32Spec data)
    ∧ calculate_crc32 [] = 0
    ∧ calculate_crc32 [0x31, 0x32, 0x33, 0x34, 0x35, 0x36, 0x37, 0x38, 0x39]
        = 0xCBF43926 := by
  refine ⟨?_, by decide, by decide⟩
  intro data hwf
  unfold calculate_crc32 crc32Spec
  rw [crc_fold_spec data 0xFFFFFFFF hwf]

/-- C8 witness: the equivalence applied to the concrete one-byte
sequence [7]. -/
theorem C8_witness : calculate_crc32 [7] = crc32Spec [7] :=
  C8_crc32_reflected.1 [7] (by decide)

/-! ### C9: the simple checksum versus the Internet checksum -/

/-- The code's `uint32_t` accumulation is the exact word sum taken
modulo 2^32, for any in-range starting accumulator. -/
theorem checksumSumAux_eq (data : Bytes) : ∀ s : Nat, s < 2 ^ 32 →
    checksumSumAux data s = (s + inetWordSum data) % 2 ^ 32 := by
  induction data using inetWordSum.induct with
  | case1 =>
    intro s hs
    simp only [checksumSumAux, inetWordSum]
    omega
  | case2 a =>
    intro s hs
    simp only [checksumSumAux, inetWordSum]
  | case3 a b rest ih =>
    intro s hs
    simp only [checksumSumAux, inetWordSum]
    rw [ih ((s + (a * 256 + b)) % 2 ^ 32) (Nat.mod_lt _ (by norm_num)),
      Nat.mod_add_mod, Nat.add_assoc]

/-- The exact word sum of a well-formed sequence is bounded by 65535 per
word. -/
theorem inetWordSum_le (data : Bytes) : BytesWF data →
    inetWordSum data ≤ 65535 * ((data.length + 1) / 2) := by
  induction data using inetWordSum.induct with
  | case1 =>
    intro _
    simp [inetWordSum]
  | case2 a =>
    intro hwf
    have ha : a < 256 := hwf a (List.mem_singleton_self a)
    simp only [inetWordSum, List.length_singleton]
    omega
  | case3 a b rest ih =>
    intro hwf
    have ha : a < 256 := hwf a (List.mem_cons_self a _)
    have hb : b < 256 := hwf b (List.mem_cons_of_mem a (List.mem_cons_self b _))
    have ihr := ih (fun x hx =>
      hwf x (List.mem_cons_of_mem a (List.mem_cons_of_mem b hx)))
    simp only [inetWordSum, List.length_cons]
    omega

/-- The carry fold always lands below 2^16. -/
theorem foldCarries_lt (s : Nat) : foldCarries s < 2 ^ 16 := by
  induction s using foldCarries.induct with
  | case1 s h ih =>
    rw [foldCarries, if_pos h]
    exact ih
  | case2 s h =>
    rw [foldCarries, if_neg h]
    have hdiv := Nat.shiftRight_eq_div_pow s 16
    norm_num at hdiv ⊢
    omega

/-- For a 16-bit value, `~sum & 0xFFFF` on a `uint32_t` is xor with
0xFFFF. -/
theorem maskNot (x : Nat) (hx : x < 2 ^ 16) :
    (x ^^^ 0xFFFFFFFF) &&& 0xFFFF = x ^^^ 0xFFFF := by
  apply Nat.eq_of_testBit_eq
  intro i
  rw [Nat.testBit_and, Nat.testBit_xor, Nat.testBit_xor]
  by_cases hi : i < 16
  · have h32 : Nat.testBit 0xFFFFFFFF i = true := by
      interval_cases i <;> decide
    have h16 : Nat.testBit 0xFFFF i = true := by
      interval_cases i <;> decide
    rw [h32, h16]
    cases hxb : x.testBit i <;> rfl
  · have hpow : (2 : Nat) ^ 16 ≤ 2 ^ i :=
      Nat.pow_le_pow_right (by norm_num) (by omega)
    have hxf : x.testBit i = false :=
      Nat.testBit_lt_two_pow (lt_of_lt_of_le hx hpow)
    have h16 : Nat.testBit 0xFFFF i = false :=
      Nat.testBit_lt_two_pow (lt_of_lt_of_le (by norm_num) hpow)
    rw [hxf, h16]
    cases h32 : Nat.testBit 0xFFFFFFFF i <;> rfl

/-- The exact word sum of 2·n bytes 0xFF. -/
theorem inetWordSum_replicate (n : Nat) :
    inetWordSum (List.replicate (2 * n) 255) = n * 65535 := by
  induction n with
  | zero => rfl
  | succ n ih =>
    have h2 : 2 * (n + 1) = 2 * n + 1 + 1 := by omega
    rw [h2, List.replicate_succ, List.replicate_succ]
    show 255 * 256 + 255 + inetWordSum (List.replicate (2 * n) 255)
      = (n + 1) * 65535
    rw [ih]
    ring

theorem calculate_simple_checksum_eq (data : Bytes) :
    calculate_simple_checksum data =
      ((foldCarries (checksumSumAux data 0)) ^^^ 0xFFFFFFFF) &&& 0xFFFF := rfl

theorem internetChecksum_eq (data : Bytes) :
    internetChecksum data = (foldCarries (inetWordSum data)) ^^^ 0xFFFF := rfl

/-- C9 counterexample: 131076 bytes of 0xFF. The exact word sum is
65538 · 65535 = 2^32 + 65534, so the code's `uint32_t` accumulator wraps
to 65534 and yields checksum 1, while the Internet checksum folds the
lost carry back in and yields 0. -/
theorem C9_counterexample :
    calculate_simple_checksum (List.replicate 131076 255)
      ≠ internetChecksum (List.replicate 131076 255) := by
  have h1 : (131076 : Nat) = 2 * 65538 := by norm_num
  have hws : inetWordSum (List.replicate 131076 255) = 65538 * 65535 := by
    rw [h1, inetWordSum_replicate]
  have haux : checksumSumAux (List.replicate 131076 255) 0 = 65534 := by
    rw [checksumSumAux_eq _ 0 (by norm_num), hws]
    norm_num
  have hcode : calculate_simple_checksum (List.replicate 131076 255) = 1 := by
    rw [calculate_simple_checksum_eq, haux, foldCarries, if_neg (by decide)]
    decide
  have hspec : internetChecksum (List.replicate 131076 255) = 0 := by
    rw [internetChecksum_eq, hws]
    have harg1 : (65538 * 65535 &&& 0xFFFF) + ((65538 * 65535) >>> 16)
        = 131070 := by decide
    have hf1 : foldCarries (65538 * 65535) = foldCarries 131070 := by
      rw [foldCarries, if_pos (by decide), harg1]
    have harg2 : (131070 &&& 0xFFFF) + ((131070 : Nat) >>> 16) = 65535 := by
      decide
    have hf2 : foldCarries 131070 = foldCarries 65535 := by
      rw [foldCarries, if_pos (by decide), harg2]
    have hf3 : foldCarries 65535 = 65535 := by
      rw [foldCarries, if_neg (by decide)]
    rw [hf1, hf2, hf3]
    decide
  rw [hcode, hspec]
  decide

/-- C9 (amended): on every well-formed byte sequence of at most 131074
bytes — so that the exact word sum stays below 2^32 and the code's
`uint32_t` accumulator cannot wrap — `calculate_simple_checksum` equals
the Internet (16-bit ones-complement) checksum over the data alone; and
the checksum of the empty sequence is 0xFFFF. -/
theorem C9_checksum_amended :
    (∀ data : Bytes, BytesWF data → data.length ≤ 131074 →
      calculate_simple_checksum data = internetChecksum data)
    ∧ calculate_simple_checksum [] = 0xFFFF := by
  constructor
  · intro data hwf hlen
    unfold calculate_simple_checksum internetChecksum
    have hbound : inetWordSum data < 2 ^ 32 := by
      have hle := inetWordSum_le data hwf
      omega
    have hsum : checksumSumAux data 0 = inetWordSum data := by
      rw [checksumSumAux_eq data 0 (by norm_num)]
      omega
    rw [hsum]
    exact maskNot (foldCarries (inetWordSum data)) (foldCarries_lt _)
  · show ((foldCarries (checksumSumAux [] 0)) ^^^ 0xFFFFFFFF) &&& 0xFFFF
      = 0xFFFF
    have h0 : checksumSumAux [] 0 = 0 := rfl
    rw [h0, foldCarries, if_neg (by decide)]
    decide

/-- C9 witness: the spec's own example bytes. -/
theorem C9_witness :
    calculate_simple_checksum [0x00, 0x01, 0xF2, 0x03]
      = internetChecksum [0x00, 0x01, 0xF2, 0x03] :=
  C9_checksum_amended.1 [0x00, 0x01, 0xF2, 0x03] (by decide) (by decide)

end EmbeddedTest
